import Mathlib

/-
Verification of the PaymentEngine ledger core (src/engine.rs, src/types.rs).

Shallow embedding: `rust_decimal::Decimal` amounts become `Rat` (exact
arithmetic, only +, -, ≤ are used); the two `HashMap`s become association
lists with first-occurrence lookup and a cons-after-erase update, which
agrees with `HashMap` semantics because keys are never duplicated by the
engine's operations.
-/

namespace PaymentEngine

/-- Client identifier (`u16` in the source; no arithmetic is performed on it). -/
abbrev ClientId := Nat

/-- Transaction identifier (`u32` in the source; no arithmetic is performed on it). -/
abbrev TxId := Nat

/-- Transaction type parsed from the input (types.rs, `enum TxType`). -/
inductive TxType where
  | Deposit
  | Withdrawal
  | Dispute
  | Resolve
  | Chargeback
deriving DecidableEq, Repr

/-- A raw transaction record (types.rs, `struct TransactionRecord`). -/
structure TransactionRecord where
  tx_type : TxType
  client_id : ClientId
  tx_id : TxId
  amount : Option Rat
deriving DecidableEq, Repr

/-- Lifecycle of a deposit through the dispute process (types.rs, `enum DepositStatus`). -/
inductive DepositStatus where
  | Normal
  | Disputed
  | ChargedBack
deriving DecidableEq, Repr

/-- A stored deposit (types.rs, `struct DepositRecord`). -/
structure DepositRecord where
  client_id : ClientId
  amount : Rat
  status : DepositStatus
deriving DecidableEq, Repr

/-- A single client account (types.rs, `struct Account`). -/
structure Account where
  available : Rat
  held : Rat
  locked : Bool
deriving DecidableEq, Repr

/-- `impl Default for Account`: zero balances, unlocked. -/
def Account.default : Account := ⟨0, 0, false⟩

/-- `Account::total`: available + held. -/
def Account.total (a : Account) : Rat := a.available + a.held

/-- First-occurrence association-list lookup, modelling `HashMap::get`. -/
def alookup {α : Type} (m : List (Nat × α)) (k : Nat) : Option α :=
  match m with
  | [] => none
  | (k', v) :: rest => if k' = k then some v else alookup rest k

/-- Remove the first pair carrying key `k`, if any. -/
def aerase {α : Type} (m : List (Nat × α)) (k : Nat) : List (Nat × α) :=
  match m with
  | [] => []
  | (k', v) :: rest => if k' = k then rest else (k', v) :: aerase rest k

/-- Store `v` at key `k` (insert-or-overwrite), modelling `HashMap::insert`
and in-place mutation through `get_mut` / `entry`. -/
def aset {α : Type} (m : List (Nat × α)) (k : Nat) (v : α) : List (Nat × α) :=
  (k, v) :: aerase m k

/-- The payments engine state (engine.rs, `struct Engine`). -/
structure Engine where
  accounts : List (ClientId × Account)
  deposits : List (TxId × DepositRecord)
deriving DecidableEq, Repr

/-- `Engine::new`: empty maps. -/
def Engine.new : Engine := ⟨[], []⟩

/-- The account read or created by `self.accounts.entry(client).or_default()`. -/
def Engine.entryAccount (e : Engine) (c : ClientId) : Account :=
  (alookup e.accounts c).getD Account.default

/-- `Engine::deposit` (engine.rs lines 51-72). -/
def Engine.deposit (e : Engine) (r : TransactionRecord) : Engine :=
  match r.amount with
  | none => e
  | some amount =>
    if (alookup e.deposits r.tx_id).isSome then e
    else
      let account := e.entryAccount r.client_id
      let account' := { account with available := account.available + amount }
      { accounts := aset e.accounts r.client_id account',
        deposits := aset e.deposits r.tx_id
          ⟨r.client_id, amount, DepositStatus.Normal⟩ }

/-- `Engine::withdrawal` (engine.rs lines 74-91). The `entry(...).or_default()`
creates the account even when the funds are insufficient; the failure branch
only logs. -/
def Engine.withdrawal (e : Engine) (r : TransactionRecord) : Engine :=
  match r.amount with
  | none => e
  | some amount =>
    let account := e.entryAccount r.client_id
    if amount ≤ account.available then
      let account' := { account with available := account.available - amount }
      { e with accounts := aset e.accounts r.client_id account' }
    else
      { e with accounts := aset e.accounts r.client_id account }

/-- `Engine::dispute` (engine.rs lines 93-123). -/
def Engine.dispute (e : Engine) (r : TransactionRecord) : Engine :=
  match alookup e.deposits r.tx_id with
  | none => e
  | some deposit =>
    if deposit.client_id ≠ r.client_id then e
    else if deposit.status ≠ DepositStatus.Normal then e
    else
      match alookup e.accounts r.client_id with
      | none => e
      | some account =>
        let account' := { account with
          available := account.available - deposit.amount,
          held := account.held + deposit.amount }
        { accounts := aset e.accounts r.client_id account',
          deposits := aset e.deposits r.tx_id
            { deposit with status := DepositStatus.Disputed } }

/-- `Engine::resolve` (engine.rs lines 125-155). -/
def Engine.resolve (e : Engine) (r : TransactionRecord) : Engine :=
  match alookup e.deposits r.tx_id with
  | none => e
  | some deposit =>
    if deposit.client_id ≠ r.client_id then e
    else if deposit.status ≠ DepositStatus.Disputed then e
    else
      match alookup e.accounts r.client_id with
      | none => e
      | some account =>
        let account' := { account with
          held := account.held - deposit.amount,
          available := account.available + deposit.amount }
        { accounts := aset e.accounts r.client_id account',
          deposits := aset e.deposits r.tx_id
            { deposit with status := DepositStatus.Normal } }

/-- `Engine::chargeback` (engine.rs lines 157-187). -/
def Engine.chargeback (e : Engine) (r : TransactionRecord) : Engine :=
  match alookup e.deposits r.tx_id with
  | none => e
  | some deposit =>
    if deposit.client_id ≠ r.client_id then e
    else if deposit.status ≠ DepositStatus.Disputed then e
    else
      match alookup e.accounts r.client_id with
      | none => e
      | some account =>
        let account' := { account with
          held := account.held - deposit.amount,
          locked := true }
        { accounts := aset e.accounts r.client_id account',
          deposits := aset e.deposits r.tx_id
            { deposit with status := DepositStatus.ChargedBack } }

/-- The kind dispatch inside `Engine::process` (engine.rs lines 28-34). -/
def Engine.dispatch (e : Engine) (r : TransactionRecord) : Engine :=
  match r.tx_type with
  | TxType.Deposit => e.deposit r
  | TxType.Withdrawal => e.withdrawal r
  | TxType.Dispute => e.dispute r
  | TxType.Resolve => e.resolve r
  | TxType.Chargeback => e.chargeback r

/-- `Engine::process` (engine.rs lines 20-35): the locked-account guard
followed by the per-kind dispatch. -/
def Engine.process (e : Engine) (r : TransactionRecord) : Engine :=
  match alookup e.accounts r.client_id with
  | some account => if account.locked then e else e.dispatch r
  | none => e.dispatch r

/-- Apply a whole stream of records in order (the `main` loop). -/
def Engine.applyAll (e : Engine) (rs : List TransactionRecord) : Engine :=
  rs.foldl Engine.process e

/-- Sum of `f` over the values of an association list. -/
def sumBy {α : Type} (m : List (Nat × α)) (f : α → Rat) : Rat :=
  (m.map (fun p => f p.2)).sum

/-- Sum of all account totals, as in summing `Engine::output` rows. -/
def Engine.sumTotal (e : Engine) : Rat :=
  sumBy e.accounts Account.total

/-- The held funds of client `c`, zero when no account exists. -/
def Engine.heldOf (e : Engine) (c : ClientId) : Rat :=
  (alookup e.accounts c).elim 0 Account.held

/-- Contribution of one stored deposit to client `c`'s disputed total: its
amount when it is owned by `c` and currently in `Disputed` status, else `0`. -/
def dContrib (c : ClientId) (d : DepositRecord) : Rat :=
  if d.client_id = c ∧ d.status = DepositStatus.Disputed then d.amount else 0

/-- Sum of the amounts of stored deposits owned by `c` currently in `Disputed` status. -/
def Engine.disputedSum (e : Engine) (c : ClientId) : Rat :=
  sumBy e.deposits (dContrib c)

/-- The locked-account guard of `Engine::process` lets `c`'s records through. -/
def Engine.notLockedFor (e : Engine) (c : ClientId) : Prop :=
  ∀ a, alookup e.accounts c = some a → a.locked = false

instance (e : Engine) (c : ClientId) : Decidable (e.notLockedFor c) :=
  match h : alookup e.accounts c with
  | none => isTrue (fun b hb => by rw [h] at hb; cases hb)
  | some a =>
    if hl : a.locked = false then
      isTrue (fun b hb => by
        rw [h] at hb
        exact (Option.some.inj hb) ▸ hl)
    else
      isFalse (fun hf => hl (hf a h))

theorem alookup_aset_self {α : Type} (m : List (Nat × α)) (k : Nat) (v : α) :
    alookup (aset m k v) k = some v := by
  simp [aset, alookup]

theorem alookup_aerase_ne {α : Type} (m : List (Nat × α)) (k k' : Nat) (h : k' ≠ k) :
    alookup (aerase m k) k' = alookup m k' := by
  induction m with
  | nil => rfl
  | cons p rest ih =>
    obtain ⟨pk, pv⟩ := p
    by_cases hk : pk = k
    · simp [aerase, alookup, hk, Ne.symm h]
    · by_cases hk2 : pk = k'
      · simp [aerase, alookup, hk, hk2, h]
      · simp [aerase, alookup, hk, hk2, ih]

theorem alookup_aset_ne {α : Type} (m : List (Nat × α)) (k : Nat) (v : α) (k' : Nat)
    (h : k' ≠ k) : alookup (aset m k v) k' = alookup m k' := by
  simp [aset, alookup, Ne.symm h, alookup_aerase_ne m k k' h]

theorem alookup_aset_isSome {α : Type} (m : List (Nat × α)) (k : Nat) (v : α) (k' : Nat)
    (h : (alookup m k').isSome) : (alookup (aset m k v) k').isSome := by
  by_cases hk : k' = k
  · subst hk; simp [alookup_aset_self]
  · rw [alookup_aset_ne m k v k' hk]; exact h

theorem alookup_mem {α : Type} (m : List (Nat × α)) (k : Nat) (v : α)
    (h : alookup m k = some v) : (k, v) ∈ m := by
  induction m with
  | nil => cases h
  | cons p rest ih =>
    obtain ⟨pk, pv⟩ := p
    rw [show alookup ((pk, pv) :: rest) k =
      if pk = k then some pv else alookup rest k from rfl] at h
    by_cases hk : pk = k
    · rw [if_pos hk] at h
      cases h
      subst hk
      exact List.mem_cons_self _ _
    · rw [if_neg hk] at h
      exact List.mem_cons_of_mem _ (ih h)

theorem mem_aerase {α : Type} {m : List (Nat × α)} {k : Nat} {p : Nat × α}
    (h : p ∈ aerase m k) : p ∈ m := by
  induction m with
  | nil => exact h
  | cons q rest ih =>
    by_cases hk : q.1 = k
    · simp [aerase, hk] at h
      exact List.mem_cons_of_mem q h
    · simp [aerase, hk] at h
      rcases h with h | h
      · exact h ▸ List.mem_cons_self q rest
      · exact List.mem_cons_of_mem q (ih h)

theorem mem_aset {α : Type} {m : List (Nat × α)} {k : Nat} {v : α} {p : Nat × α}
    (h : p ∈ aset m k v) : p = (k, v) ∨ p ∈ m := by
  rcases List.mem_cons.mp h with h | h
  · exact Or.inl h
  · exact Or.inr (mem_aerase h)

theorem sumBy_aerase {α : Type} (m : List (Nat × α)) (k : Nat) (f : α → Rat) :
    sumBy (aerase m k) f = sumBy m f - (alookup m k).elim 0 f := by
  induction m with
  | nil => simp [aerase, sumBy, alookup]
  | cons p rest ih =>
    by_cases hk : p.1 = k
    · simp [aerase, sumBy, alookup, hk]
    · simp [aerase, sumBy, alookup, hk] at ih ⊢
      rw [ih]; ring

theorem sumBy_aset {α : Type} (m : List (Nat × α)) (k : Nat) (v : α) (f : α → Rat) :
    sumBy (aset m k v) f = sumBy m f + f v - (alookup m k).elim 0 f := by
  simp [aset, sumBy] at *
  have := sumBy_aerase m k f
  simp [sumBy] at this
  rw [this]; ring

theorem sumBy_nonneg {α : Type} (m : List (Nat × α)) (f : α → Rat)
    (h : ∀ p ∈ m, 0 ≤ f p.2) : 0 ≤ sumBy m f := by
  induction m with
  | nil => simp [sumBy]
  | cons p rest ih =>
    have h1 : 0 ≤ f p.2 := h p (List.mem_cons_self p rest)
    have h2 : 0 ≤ sumBy rest f := ih fun q hq => h q (List.mem_cons_of_mem p hq)
    simp only [sumBy, List.map_cons, List.sum_cons]
    exact add_nonneg h1 h2

/-! ### Characterization of the engine operations -/

theorem process_of_locked (e : Engine) (r : TransactionRecord) (a : Account)
    (ha : alookup e.accounts r.client_id = some a) (hl : a.locked = true) :
    e.process r = e := by
  unfold Engine.process
  rw [ha]
  simp [hl]

theorem process_eq_dispatch (e : Engine) (r : TransactionRecord)
    (h : e.notLockedFor r.client_id) : e.process r = e.dispatch r := by
  unfold Engine.process
  cases ha : alookup e.accounts r.client_id with
  | none => rfl
  | some a => simp [h a ha]

theorem process_eq_of_dispatch (e : Engine) (r : TransactionRecord)
    (h : e.dispatch r = e) : e.process r = e := by
  unfold Engine.process
  cases ha : alookup e.accounts r.client_id with
  | none => exact h
  | some a => cases hl : a.locked <;> simp [h]

theorem applyAll_cons (e : Engine) (r : TransactionRecord) (rs : List TransactionRecord) :
    e.applyAll (r :: rs) = (e.process r).applyAll rs := rfl

theorem deposit_noop (e : Engine) (r : TransactionRecord)
    (h : r.amount = none ∨ (alookup e.deposits r.tx_id).isSome) :
    e.deposit r = e := by
  unfold Engine.deposit
  rcases h with h | h
  · rw [h]
  · cases hm : r.amount with
    | none => rfl
    | some amt => simp [h]

theorem deposit_eq (e : Engine) (r : TransactionRecord) (amt : Rat)
    (hm : r.amount = some amt) (hnd : alookup e.deposits r.tx_id = none) :
    e.deposit r =
      { accounts := (aset e.accounts r.client_id
          { e.entryAccount r.client_id with
              available := (e.entryAccount r.client_id).available + amt }),
        deposits := aset e.deposits r.tx_id ⟨r.client_id, amt, DepositStatus.Normal⟩ } := by
  unfold Engine.deposit
  rw [hm, hnd]
  rfl

theorem withdrawal_noop (e : Engine) (r : TransactionRecord) (h : r.amount = none) :
    e.withdrawal r = e := by
  unfold Engine.withdrawal
  rw [h]

theorem withdrawal_eq_suff (e : Engine) (r : TransactionRecord) (amt : Rat)
    (hm : r.amount = some amt)
    (hle : amt ≤ (e.entryAccount r.client_id).available) :
    e.withdrawal r =
      { e with accounts := (aset e.accounts r.client_id
          { e.entryAccount r.client_id with
              available := (e.entryAccount r.client_id).available - amt }) } := by
  unfold Engine.withdrawal
  rw [hm]
  simp [hle]

theorem withdrawal_eq_insuff (e : Engine) (r : TransactionRecord) (amt : Rat)
    (hm : r.amount = some amt)
    (hgt : ¬ amt ≤ (e.entryAccount r.client_id).available) :
    e.withdrawal r =
      { e with accounts := (aset e.accounts r.client_id (e.entryAccount r.client_id)) } := by
  unfold Engine.withdrawal
  rw [hm]
  simp [hgt]

theorem dispute_noop (e : Engine) (r : TransactionRecord)
    (h : ∀ d, alookup e.deposits r.tx_id = some d →
      d.client_id ≠ r.client_id ∨ d.status ≠ DepositStatus.Normal ∨
      alookup e.accounts r.client_id = none) :
    e.dispute r = e := by
  unfold Engine.dispute
  cases hd : alookup e.deposits r.tx_id with
  | none => rfl
  | some d =>
    rcases h d hd with h | h | h
    · simp [h]
    · simp [h]
    · simp [h]

theorem dispute_eq (e : Engine) (r : TransactionRecord) (d : DepositRecord) (a : Account)
    (hd : alookup e.deposits r.tx_id = some d)
    (hown : d.client_id = r.client_id)
    (hst : d.status = DepositStatus.Normal)
    (ha : alookup e.accounts r.client_id = some a) :
    e.dispute r =
      { accounts := aset e.accounts r.client_id
          { a with available := a.available - d.amount, held := a.held + d.amount },
        deposits := aset e.deposits r.tx_id { d with status := DepositStatus.Disputed } } := by
  unfold Engine.dispute
  rw [hd]
  simp [hown, hst, ha]

theorem resolve_noop (e : Engine) (r : TransactionRecord)
    (h : ∀ d, alookup e.deposits r.tx_id = some d →
      d.client_id ≠ r.client_id ∨ d.status ≠ DepositStatus.Disputed ∨
      alookup e.accounts r.client_id = none) :
    e.resolve r = e := by
  unfold Engine.resolve
  cases hd : alookup e.deposits r.tx_id with
  | none => rfl
  | some d =>
    rcases h d hd with h | h | h
    · simp [h]
    · simp [h]
    · simp [h]

theorem resolve_eq (e : Engine) (r : TransactionRecord) (d : DepositRecord) (a : Account)
    (hd : alookup e.deposits r.tx_id = some d)
    (hown : d.client_id = r.client_id)
    (hst : d.status = DepositStatus.Disputed)
    (ha : alookup e.accounts r.client_id = some a) :
    e.resolve r =
      { accounts := aset e.accounts r.client_id
          { a with held := a.held - d.amount, available := a.available + d.amount },
        deposits := aset e.deposits r.tx_id { d with status := DepositStatus.Normal } } := by
  unfold Engine.resolve
  rw [hd]
  simp [hown, hst, ha]

theorem chargeback_noop (e : Engine) (r : TransactionRecord)
    (h : ∀ d, alookup e.deposits r.tx_id = some d →
      d.client_id ≠ r.client_id ∨ d.status ≠ DepositStatus.Disputed ∨
      alookup e.accounts r.client_id = none) :
    e.chargeback r = e := by
  unfold Engine.chargeback
  cases hd : alookup e.deposits r.tx_id with
  | none => rfl
  | some d =>
    rcases h d hd with h | h | h
    · simp [h]
    · simp [h]
    · simp [h]

theorem chargeback_eq (e : Engine) (r : TransactionRecord) (d : DepositRecord) (a : Account)
    (hd : alookup e.deposits r.tx_id = some d)
    (hown : d.client_id = r.client_id)
    (hst : d.status = DepositStatus.Disputed)
    (ha : alookup e.accounts r.client_id = some a) :
    e.chargeback r =
      { accounts := aset e.accounts r.client_id
          { a with held := a.held - d.amount, locked := true },
        deposits := aset e.deposits r.tx_id { d with status := DepositStatus.ChargedBack } } := by
  unfold Engine.chargeback
  rw [hd]
  simp [hown, hst, ha]

theorem dispatch_deposit (e : Engine) (r : TransactionRecord)
    (h : r.tx_type = TxType.Deposit) : e.dispatch r = e.deposit r := by
  unfold Engine.dispatch; rw [h]

theorem dispatch_withdrawal (e : Engine) (r : TransactionRecord)
    (h : r.tx_type = TxType.Withdrawal) : e.dispatch r = e.withdrawal r := by
  unfold Engine.dispatch; rw [h]

theorem dispatch_dispute (e : Engine) (r : TransactionRecord)
    (h : r.tx_type = TxType.Dispute) : e.dispatch r = e.dispute r := by
  unfold Engine.dispatch; rw [h]

theorem dispatch_resolve (e : Engine) (r : TransactionRecord)
    (h : r.tx_type = TxType.Resolve) : e.dispatch r = e.resolve r := by
  unfold Engine.dispatch; rw [h]

theorem dispatch_chargeback (e : Engine) (r : TransactionRecord)
    (h : r.tx_type = TxType.Chargeback) : e.dispatch r = e.chargeback r := by
  unfold Engine.dispatch; rw [h]

theorem not_notLockedFor (e : Engine) (c : ClientId) (h : ¬ e.notLockedFor c) :
    ∃ a, alookup e.accounts c = some a ∧ a.locked = true := by
  unfold Engine.notLockedFor at h
  push_neg at h
  obtain ⟨a, ha, hl⟩ := h
  exact ⟨a, ha, by simpa using hl⟩

theorem process_cases (e : Engine) (r : TransactionRecord) :
    e.process r = e ∨ (e.notLockedFor r.client_id ∧ e.process r = e.dispatch r) := by
  by_cases hnl : e.notLockedFor r.client_id
  · exact Or.inr ⟨hnl, process_eq_dispatch e r hnl⟩
  · obtain ⟨a, ha, hl⟩ := not_notLockedFor e r.client_id hnl
    exact Or.inl (process_of_locked e r a ha hl)

theorem deposit_cases (e : Engine) (r : TransactionRecord) :
    e.deposit r = e ∨
    ∃ amt, r.amount = some amt ∧ alookup e.deposits r.tx_id = none ∧
      e.deposit r =
        { accounts := (aset e.accounts r.client_id
            { e.entryAccount r.client_id with
                available := (e.entryAccount r.client_id).available + amt }),
          deposits := aset e.deposits r.tx_id ⟨r.client_id, amt, DepositStatus.Normal⟩ } := by
  cases hm : r.amount with
  | none => exact Or.inl (deposit_noop e r (Or.inl hm))
  | some amt =>
    cases hnd : alookup e.deposits r.tx_id with
    | some d => exact Or.inl (deposit_noop e r (Or.inr (by rw [hnd]; rfl)))
    | none => exact Or.inr ⟨amt, rfl, rfl, deposit_eq e r amt hm hnd⟩

theorem withdrawal_cases (e : Engine) (r : TransactionRecord) :
    e.withdrawal r = e ∨
    ∃ amt, r.amount = some amt ∧
      ((amt ≤ (e.entryAccount r.client_id).available ∧
        e.withdrawal r =
          { e with accounts := (aset e.accounts r.client_id
              { e.entryAccount r.client_id with
                  available := (e.entryAccount r.client_id).available - amt }) }) ∨
       (¬ amt ≤ (e.entryAccount r.client_id).available ∧
        e.withdrawal r =
          { e with accounts := (aset e.accounts r.client_id (e.entryAccount r.client_id)) })) := by
  cases hm : r.amount with
  | none => exact Or.inl (withdrawal_noop e r hm)
  | some amt =>
    by_cases hle : amt ≤ (e.entryAccount r.client_id).available
    · exact Or.inr ⟨amt, rfl, Or.inl ⟨hle, withdrawal_eq_suff e r amt hm hle⟩⟩
    · exact Or.inr ⟨amt, rfl, Or.inr ⟨hle, withdrawal_eq_insuff e r amt hm hle⟩⟩

theorem dispute_cases (e : Engine) (r : TransactionRecord) :
    e.dispute r = e ∨
    ∃ d a, alookup e.deposits r.tx_id = some d ∧ d.client_id = r.client_id ∧
      d.status = DepositStatus.Normal ∧ alookup e.accounts r.client_id = some a ∧
      e.dispute r =
        { accounts := aset e.accounts r.client_id
            { a with available := a.available - d.amount, held := a.held + d.amount },
          deposits := aset e.deposits r.tx_id { d with status := DepositStatus.Disputed } } := by
  cases hd : alookup e.deposits r.tx_id with
  | none => exact Or.inl (dispute_noop e r (fun d hdd => by rw [hd] at hdd; cases hdd))
  | some d =>
    by_cases hown : d.client_id = r.client_id
    · by_cases hst : d.status = DepositStatus.Normal
      · cases ha : alookup e.accounts r.client_id with
        | none =>
          refine Or.inl (dispute_noop e r (fun d' hdd => ?_))
          rw [hd] at hdd; cases hdd
          exact Or.inr (Or.inr ha)
        | some a => exact Or.inr ⟨d, a, rfl, hown, hst, rfl, dispute_eq e r d a hd hown hst ha⟩
      · refine Or.inl (dispute_noop e r (fun d' hdd => ?_))
        rw [hd] at hdd; cases hdd
        exact Or.inr (Or.inl hst)
    · refine Or.inl (dispute_noop e r (fun d' hdd => ?_))
      rw [hd] at hdd; cases hdd
      exact Or.inl hown

theorem resolve_cases (e : Engine) (r : TransactionRecord) :
    e.resolve r = e ∨
    ∃ d a, alookup e.deposits r.tx_id = some d ∧ d.client_id = r.client_id ∧
      d.status = DepositStatus.Disputed ∧ alookup e.accounts r.client_id = some a ∧
      e.resolve r =
        { accounts := aset e.accounts r.client_id
            { a with held := a.held - d.amount, available := a.available + d.amount },
          deposits := aset e.deposits r.tx_id { d with status := DepositStatus.Normal } } := by
  cases hd : alookup e.deposits r.tx_id with
  | none => exact Or.inl (resolve_noop e r (fun d hdd => by rw [hd] at hdd; cases hdd))
  | some d =>
    by_cases hown : d.client_id = r.client_id
    · by_cases hst : d.status = DepositStatus.Disputed
      · cases ha : alookup e.accounts r.client_id with
        | none =>
          refine Or.inl (resolve_noop e r (fun d' hdd => ?_))
          rw [hd] at hdd; cases hdd
          exact Or.inr (Or.inr ha)
        | some a => exact Or.inr ⟨d, a, rfl, hown, hst, rfl, resolve_eq e r d a hd hown hst ha⟩
      · refine Or.inl (resolve_noop e r (fun d' hdd => ?_))
        rw [hd] at hdd; cases hdd
        exact Or.inr (Or.inl hst)
    · refine Or.inl (resolve_noop e r (fun d' hdd => ?_))
      rw [hd] at hdd; cases hdd
      exact Or.inl hown

theorem chargeback_cases (e : Engine) (r : TransactionRecord) :
    e.chargeback r = e ∨
    ∃ d a, alookup e.deposits r.tx_id = some d ∧ d.client_id = r.client_id ∧
      d.status = DepositStatus.Disputed ∧ alookup e.accounts r.client_id = some a ∧
      e.chargeback r =
        { accounts := aset e.accounts r.client_id
            { a with held := a.held - d.amount, locked := true },
          deposits := aset e.deposits r.tx_id { d with status := DepositStatus.ChargedBack } } := by
  cases hd : alookup e.deposits r.tx_id with
  | none => exact Or.inl (chargeback_noop e r (fun d hdd => by rw [hd] at hdd; cases hdd))
  | some d =>
    by_cases hown : d.client_id = r.client_id
    · by_cases hst : d.status = DepositStatus.Disputed
      · cases ha : alookup e.accounts r.client_id with
        | none =>
          refine Or.inl (chargeback_noop e r (fun d' hdd => ?_))
          rw [hd] at hdd; cases hdd
          exact Or.inr (Or.inr ha)
        | some a => exact Or.inr ⟨d, a, rfl, hown, hst, rfl, chargeback_eq e r d a hd hown hst ha⟩
      · refine Or.inl (chargeback_noop e r (fun d' hdd => ?_))
        rw [hd] at hdd; cases hdd
        exact Or.inr (Or.inl hst)
    · refine Or.inl (chargeback_noop e r (fun d' hdd => ?_))
      rw [hd] at hdd; cases hdd
      exact Or.inl hown

/-- The stored-deposit status each dispute-cycle kind requires (the checks at
engine.rs lines 107, 139 and 171). Deposit and Withdrawal perform no such
check; the value at those two kinds is unused. -/
def requiredStatus : TxType → DepositStatus
  | TxType.Dispute => DepositStatus.Normal
  | _ => DepositStatus.Disputed

/-! ### Records of one client never touch another client's account -/

theorem alookup_accounts_process_ne (e : Engine) (r : TransactionRecord) (c : ClientId)
    (h : c ≠ r.client_id) :
    alookup (e.process r).accounts c = alookup e.accounts c := by
  rcases process_cases e r with hp | ⟨hnl, hp⟩
  · rw [hp]
  · rw [hp]
    cases hk : r.tx_type
    case Deposit =>
      rw [dispatch_deposit e r hk]
      rcases deposit_cases e r with hc | ⟨amt, hm, hnd, hc⟩
      · rw [hc]
      · rw [hc]; exact alookup_aset_ne _ _ _ _ h
    case Withdrawal =>
      rw [dispatch_withdrawal e r hk]
      rcases withdrawal_cases e r with hc | ⟨amt, hm, ⟨hle, hc⟩ | ⟨hgt, hc⟩⟩
      · rw [hc]
      · rw [hc]; exact alookup_aset_ne _ _ _ _ h
      · rw [hc]; exact alookup_aset_ne _ _ _ _ h
    case Dispute =>
      rw [dispatch_dispute e r hk]
      rcases dispute_cases e r with hc | ⟨d, a, hd, hown, hst, ha, hc⟩
      · rw [hc]
      · rw [hc]; exact alookup_aset_ne _ _ _ _ h
    case Resolve =>
      rw [dispatch_resolve e r hk]
      rcases resolve_cases e r with hc | ⟨d, a, hd, hown, hst, ha, hc⟩
      · rw [hc]
      · rw [hc]; exact alookup_aset_ne _ _ _ _ h
    case Chargeback =>
      rw [dispatch_chargeback e r hk]
      rcases chargeback_cases e r with hc | ⟨d, a, hd, hown, hst, ha, hc⟩
      · rw [hc]
      · rw [hc]; exact alookup_aset_ne _ _ _ _ h

theorem process_locked_lookup (e : Engine) (r : TransactionRecord) (c : ClientId) (a : Account)
    (ha : alookup e.accounts c = some a) (hl : a.locked = true) :
    alookup (e.process r).accounts c = some a := by
  by_cases hc : r.client_id = c
  · rw [process_of_locked e r a (by rw [hc]; exact ha) hl]
    exact ha
  · rw [alookup_accounts_process_ne e r c (fun hh => hc hh.symm)]
    exact ha

theorem applyAll_locked_lookup (rs : List TransactionRecord) :
    ∀ (e : Engine) (c : ClientId) (a : Account),
      alookup e.accounts c = some a → a.locked = true →
      alookup (e.applyAll rs).accounts c = some a := by
  induction rs with
  | nil => intro e c a ha _; exact ha
  | cons r rs ih =>
    intro e c a ha hl
    rw [applyAll_cons]
    exact ih (e.process r) c a (process_locked_lookup e r c a ha hl) hl

/-! ### Concrete example states used by the witnesses -/

/-- A deposit of 10 to client 1 under transaction 1, applied to a fresh engine. -/
def exDeposited : Engine :=
  Engine.applyAll Engine.new [⟨TxType.Deposit, 1, 1, some 10⟩]

/-- Deposit 20 to client 1 (tx 1), dispute it, charge it back: client 1 is locked. -/
def exLocked : Engine :=
  Engine.applyAll Engine.new
    [⟨TxType.Deposit, 1, 1, some 20⟩, ⟨TxType.Dispute, 1, 1, none⟩,
     ⟨TxType.Chargeback, 1, 1, none⟩]

/-! ### The claims -/

/-- C2: once an account's locked flag is true it never reverts; any record
carrying that client ID is dropped before any kind-specific logic (the whole
engine is unchanged), and no record of any client ever changes the locked
account's fields, over a single step or a whole trace. -/
theorem locked_account_is_frozen (e : Engine) (c : ClientId) (a : Account)
    (ha : alookup e.accounts c = some a) (hl : a.locked = true) :
    (∀ r : TransactionRecord, r.client_id = c → e.process r = e) ∧
    (∀ r : TransactionRecord, alookup (e.process r).accounts c = some a) ∧
    (∀ rs : List TransactionRecord, alookup (e.applyAll rs).accounts c = some a) :=
  ⟨fun r hc => process_of_locked e r a (by rw [hc]; exact ha) hl,
   fun r => process_locked_lookup e r c a ha hl,
   fun rs => applyAll_locked_lookup rs e c a ha hl⟩

theorem locked_account_is_frozen_witness :
    alookup exLocked.accounts 1 = some ⟨0, 0, true⟩ ∧
    exLocked.process ⟨TxType.Deposit, 1, 5, some 50⟩ = exLocked ∧
    alookup (exLocked.applyAll [⟨TxType.Resolve, 1, 1, none⟩]).accounts 1 =
      some ⟨0, 0, true⟩ := by
  have ha : alookup exLocked.accounts 1 = some ⟨0, 0, true⟩ := by
    norm_num [exLocked, Engine.applyAll, Engine.new, Engine.process, Engine.dispatch,
      Engine.deposit, Engine.withdrawal, Engine.dispute, Engine.resolve, Engine.chargeback,
      Engine.entryAccount, alookup, aset, aerase, Account.default]
  obtain ⟨h1, h2, h3⟩ := locked_account_is_frozen exLocked 1 ⟨0, 0, true⟩ ha rfl
  exact ⟨ha, h1 _ rfl, h3 _⟩

/-- C6: a Deposit record whose amount is absent, or whose transaction ID already
has a stored deposit record, leaves the entire engine state unchanged. -/
theorem deposit_rejected_no_change (e : Engine) (r : TransactionRecord)
    (hk : r.tx_type = TxType.Deposit)
    (h : r.amount = none ∨ (alookup e.deposits r.tx_id).isSome) :
    e.process r = e :=
  process_eq_of_dispatch e r (by rw [dispatch_deposit e r hk]; exact deposit_noop e r h)

theorem deposit_rejected_no_change_witness :
    (alookup exDeposited.deposits 1).isSome ∧
    exDeposited.process ⟨TxType.Deposit, 2, 1, some 20⟩ = exDeposited ∧
    Engine.new.process ⟨TxType.Deposit, 3, 9, none⟩ = Engine.new := by
  have hs : (alookup exDeposited.deposits 1).isSome := by
    norm_num [exDeposited, Engine.applyAll, Engine.new, Engine.process, Engine.dispatch,
      Engine.deposit, Engine.entryAccount, alookup, aset, aerase, Account.default]
  exact ⟨hs, deposit_rejected_no_change exDeposited _ rfl (Or.inr hs),
    deposit_rejected_no_change Engine.new _ rfl (Or.inl rfl)⟩

/-- C7: a Dispute, Resolve or Chargeback record whose transaction ID has no
stored deposit, or whose client does not own the stored deposit, or whose
stored deposit is not in the status that the kind requires (Normal for
Dispute, Disputed for Resolve and Chargeback), leaves the entire engine
state unchanged. -/
theorem cycle_rejected_no_change (e : Engine) (r : TransactionRecord)
    (hk : r.tx_type = TxType.Dispute ∨ r.tx_type = TxType.Resolve ∨
      r.tx_type = TxType.Chargeback)
    (h : ∀ d, alookup e.deposits r.tx_id = some d →
      d.client_id ≠ r.client_id ∨ d.status ≠ requiredStatus r.tx_type) :
    e.process r = e := by
  apply process_eq_of_dispatch
  rcases hk with hk | hk | hk
  · rw [dispatch_dispute e r hk]
    refine dispute_noop e r (fun d hd => ?_)
    rcases h d hd with h' | h'
    · exact Or.inl h'
    · rw [hk] at h'
      simp only [requiredStatus] at h'
      exact Or.inr (Or.inl h')
  · rw [dispatch_resolve e r hk]
    refine resolve_noop e r (fun d hd => ?_)
    rcases h d hd with h' | h'
    · exact Or.inl h'
    · rw [hk] at h'
      simp only [requiredStatus] at h'
      exact Or.inr (Or.inl h')
  · rw [dispatch_chargeback e r hk]
    refine chargeback_noop e r (fun d hd => ?_)
    rcases h d hd with h' | h'
    · exact Or.inl h'
    · rw [hk] at h'
      simp only [requiredStatus] at h'
      exact Or.inr (Or.inl h')

theorem cycle_rejected_no_change_witness :
    alookup exDeposited.deposits 1 = some ⟨1, 10, DepositStatus.Normal⟩ ∧
    exDeposited.process ⟨TxType.Dispute, 2, 1, none⟩ = exDeposited ∧
    exDeposited.process ⟨TxType.Resolve, 1, 1, none⟩ = exDeposited ∧
    exDeposited.process ⟨TxType.Chargeback, 1, 1, none⟩ = exDeposited := by
  have hd : alookup exDeposited.deposits 1 = some ⟨1, 10, DepositStatus.Normal⟩ := by
    norm_num [exDeposited, Engine.applyAll, Engine.new, Engine.process, Engine.dispatch,
      Engine.deposit, Engine.entryAccount, alookup, aset, aerase, Account.default]
  refine ⟨hd, ?_, ?_, ?_⟩
  · refine cycle_rejected_no_change exDeposited _ (Or.inl rfl) (fun d hdd => ?_)
    rw [hd] at hdd; cases hdd
    exact Or.inl (by simp)
  · refine cycle_rejected_no_change exDeposited _ (Or.inr (Or.inl rfl)) (fun d hdd => ?_)
    rw [hd] at hdd; cases hdd
    exact Or.inr (by simp [requiredStatus])
  · refine cycle_rejected_no_change exDeposited _ (Or.inr (Or.inr rfl)) (fun d hdd => ?_)
    rw [hd] at hdd; cases hdd
    exact Or.inr (by simp [requiredStatus])

/-- Deposit 10 to client 1 (tx 1), then withdraw 6 (tx 2). -/
def exDepWd : Engine :=
  Engine.applyAll Engine.new
    [⟨TxType.Deposit, 1, 1, some 10⟩, ⟨TxType.Withdrawal, 1, 2, some 6⟩]

/-- C3: a Dispute whose transaction ID maps to a stored Normal-status deposit
owned by the record's client, where that client's account exists and is not
locked, subtracts the deposit's amount from available (which may go negative),
adds it to held, and marks the deposit Disputed. -/
theorem dispute_success_moves_funds (e : Engine) (r : TransactionRecord)
    (d : DepositRecord) (a : Account)
    (hk : r.tx_type = TxType.Dispute)
    (hd : alookup e.deposits r.tx_id = some d)
    (hown : d.client_id = r.client_id)
    (hst : d.status = DepositStatus.Normal)
    (ha : alookup e.accounts r.client_id = some a)
    (hl : a.locked = false) :
    alookup (e.process r).accounts r.client_id =
      some { a with available := a.available - d.amount, held := a.held + d.amount } ∧
    alookup (e.process r).deposits r.tx_id =
      some { d with status := DepositStatus.Disputed } := by
  have hnl : e.notLockedFor r.client_id := fun b hb => by
    rw [ha] at hb; cases hb; exact hl
  rw [process_eq_dispatch e r hnl, dispatch_dispute e r hk,
    dispute_eq e r d a hd hown hst ha]
  exact ⟨alookup_aset_self _ _ _, alookup_aset_self _ _ _⟩

theorem dispute_success_moves_funds_witness :
    alookup exDepWd.deposits 1 = some ⟨1, 10, DepositStatus.Normal⟩ ∧
    alookup exDepWd.accounts 1 = some ⟨4, 0, false⟩ ∧
    alookup (exDepWd.process ⟨TxType.Dispute, 1, 1, none⟩).accounts 1 =
      some ⟨-6, 10, false⟩ ∧
    alookup (exDepWd.process ⟨TxType.Dispute, 1, 1, none⟩).deposits 1 =
      some ⟨1, 10, DepositStatus.Disputed⟩ ∧
    Account.total ⟨-6, 10, false⟩ = 4 := by
  have hd : alookup exDepWd.deposits 1 = some ⟨1, 10, DepositStatus.Normal⟩ := by
    norm_num [exDepWd, Engine.applyAll, Engine.new, Engine.process, Engine.dispatch,
      Engine.deposit, Engine.withdrawal, Engine.entryAccount, alookup, aset, aerase,
      Account.default]
  have ha : alookup exDepWd.accounts 1 = some ⟨4, 0, false⟩ := by
    norm_num [exDepWd, Engine.applyAll, Engine.new, Engine.process, Engine.dispatch,
      Engine.deposit, Engine.withdrawal, Engine.entryAccount, alookup, aset, aerase,
      Account.default]
  obtain ⟨hA, hD⟩ :=
    dispute_success_moves_funds exDepWd ⟨TxType.Dispute, 1, 1, none⟩ _ _ rfl hd rfl rfl ha rfl
  refine ⟨hd, ha, ?_, hD, by norm_num [Account.total]⟩
  rw [hA]
  norm_num

/-- A deposit of 20 to client 1 under transaction 1, applied to a fresh engine. -/
def exDeposit20 : Engine :=
  Engine.applyAll Engine.new [⟨TxType.Deposit, 1, 1, some 20⟩]

/-- C4: disputing a stored Normal deposit and immediately resolving it restores
the account's available, held and locked fields and the deposit record exactly
to their pre-dispute values. -/
theorem dispute_resolve_round_trip (e : Engine) (c : ClientId) (t : TxId)
    (am1 am2 : Option Rat) (d : DepositRecord) (a : Account)
    (hd : alookup e.deposits t = some d)
    (hown : d.client_id = c)
    (hst : d.status = DepositStatus.Normal)
    (ha : alookup e.accounts c = some a)
    (hl : a.locked = false) :
    alookup ((e.process ⟨TxType.Dispute, c, t, am1⟩).process
      ⟨TxType.Resolve, c, t, am2⟩).accounts c = some a ∧
    alookup ((e.process ⟨TxType.Dispute, c, t, am1⟩).process
      ⟨TxType.Resolve, c, t, am2⟩).deposits t = some d := by
  have hnl : e.notLockedFor c := fun b hb => by rw [ha] at hb; cases hb; exact hl
  set a1 : Account :=
    { a with available := a.available - d.amount, held := a.held + d.amount } with ha1
  set d1 : DepositRecord := { d with status := DepositStatus.Disputed } with hd1
  set e1 : Engine :=
    { accounts := aset e.accounts c a1, deposits := aset e.deposits t d1 } with he1
  have h1 : e.process ⟨TxType.Dispute, c, t, am1⟩ = e1 := by
    rw [process_eq_dispatch e _ hnl, dispatch_dispute e _ rfl,
      dispute_eq e _ d a hd hown hst ha]
  rw [h1]
  have hba : alookup e1.accounts c = some a1 := alookup_aset_self _ _ _
  have hbd : alookup e1.deposits t = some d1 := alookup_aset_self _ _ _
  have hnl2 : e1.notLockedFor c := fun b hb => by
    rw [hba] at hb; cases hb; exact hl
  have h2 : e1.process ⟨TxType.Resolve, c, t, am2⟩ =
      { accounts := aset e1.accounts c
          { a1 with held := a1.held - d1.amount, available := a1.available + d1.amount },
        deposits := aset e1.deposits t { d1 with status := DepositStatus.Normal } } :=
    by rw [process_eq_dispatch _ _ hnl2, dispatch_resolve _ _ rfl,
      resolve_eq e1 _ d1 a1 hbd hown rfl hba]
  rw [h2]
  constructor
  · rw [alookup_aset_self]
    cases a with
    | mk av hh lk =>
      simp only [ha1, Option.some.injEq, Account.mk.injEq]
      refine ⟨by ring, by ring, trivial⟩
  · rw [alookup_aset_self]
    cases d with
    | mk cid amt st =>
      simp only [hd1, Option.some.injEq, DepositRecord.mk.injEq]
      simp only at hst
      exact ⟨trivial, trivial, hst.symm⟩

theorem dispute_resolve_round_trip_witness :
    alookup exDeposit20.deposits 1 = some ⟨1, 20, DepositStatus.Normal⟩ ∧
    alookup exDeposit20.accounts 1 = some ⟨20, 0, false⟩ ∧
    alookup ((exDeposit20.process ⟨TxType.Dispute, 1, 1, none⟩).process
      ⟨TxType.Resolve, 1, 1, none⟩).accounts 1 = some ⟨20, 0, false⟩ ∧
    alookup ((exDeposit20.process ⟨TxType.Dispute, 1, 1, none⟩).process
      ⟨TxType.Resolve, 1, 1, none⟩).deposits 1 = some ⟨1, 20, DepositStatus.Normal⟩ := by
  have hd : alookup exDeposit20.deposits 1 = some ⟨1, 20, DepositStatus.Normal⟩ := by
    norm_num [exDeposit20, Engine.applyAll, Engine.new, Engine.process, Engine.dispatch,
      Engine.deposit, Engine.entryAccount, alookup, aset, aerase, Account.default]
  have ha : alookup exDeposit20.accounts 1 = some ⟨20, 0, false⟩ := by
    norm_num [exDeposit20, Engine.applyAll, Engine.new, Engine.process, Engine.dispatch,
      Engine.deposit, Engine.entryAccount, alookup, aset, aerase, Account.default]
  obtain ⟨h1, h2⟩ :=
    dispute_resolve_round_trip exDeposit20 1 1 none none _ _ hd rfl rfl ha rfl
  exact ⟨hd, ha, h1, h2⟩

/-- C5: a Chargeback whose transaction ID maps to a stored Disputed deposit owned
by the record's client, with an existing unlocked account, subtracts the amount
from held, leaves available unchanged, locks the account, and marks the deposit
ChargedBack. -/
theorem chargeback_success_locks (e : Engine) (r : TransactionRecord)
    (d : DepositRecord) (a : Account)
    (hk : r.tx_type = TxType.Chargeback)
    (hd : alookup e.deposits r.tx_id = some d)
    (hown : d.client_id = r.client_id)
    (hst : d.status = DepositStatus.Disputed)
    (ha : alookup e.accounts r.client_id = some a)
    (hl : a.locked = false) :
    alookup (e.process r).accounts r.client_id =
      some { a with held := a.held - d.amount, locked := true } ∧
    alookup (e.process r).deposits r.tx_id =
      some { d with status := DepositStatus.ChargedBack } := by
  have hnl : e.notLockedFor r.client_id := fun b hb => by
    rw [ha] at hb; cases hb; exact hl
  rw [process_eq_dispatch e r hnl, dispatch_chargeback e r hk,
    chargeback_eq e r d a hd hown hst ha]
  exact ⟨alookup_aset_self _ _ _, alookup_aset_self _ _ _⟩

/-- Deposit 20 to client 1 (tx 1) and dispute it. -/
def exDisputed20 : Engine :=
  Engine.applyAll Engine.new
    [⟨TxType.Deposit, 1, 1, some 20⟩, ⟨TxType.Dispute, 1, 1, none⟩]

theorem chargeback_success_locks_witness :
    alookup exDisputed20.deposits 1 = some ⟨1, 20, DepositStatus.Disputed⟩ ∧
    alookup exDisputed20.accounts 1 = some ⟨0, 20, false⟩ ∧
    alookup (exDisputed20.process ⟨TxType.Chargeback, 1, 1, none⟩).accounts 1 =
      some ⟨0, 0, true⟩ ∧
    alookup (exDisputed20.process ⟨TxType.Chargeback, 1, 1, none⟩).deposits 1 =
      some ⟨1, 20, DepositStatus.ChargedBack⟩ ∧
    Account.total ⟨0, 0, true⟩ = 0 := by
  have hd : alookup exDisputed20.deposits 1 = some ⟨1, 20, DepositStatus.Disputed⟩ := by
    norm_num [exDisputed20, Engine.applyAll, Engine.new, Engine.process, Engine.dispatch,
      Engine.deposit, Engine.dispute, Engine.entryAccount, alookup, aset, aerase,
      Account.default]
  have ha : alookup exDisputed20.accounts 1 = some ⟨0, 20, false⟩ := by
    norm_num [exDisputed20, Engine.applyAll, Engine.new, Engine.process, Engine.dispatch,
      Engine.deposit, Engine.dispute, Engine.entryAccount, alookup, aset, aerase,
      Account.default]
  obtain ⟨hA, hD⟩ :=
    chargeback_success_locks exDisputed20 ⟨TxType.Chargeback, 1, 1, none⟩ _ _ rfl hd rfl rfl ha rfl
  refine ⟨hd, ha, ?_, hD, by norm_num [Account.total]⟩
  rw [hA]
  norm_num

/-- C8: a Withdrawal applied to an unlocked or absent account: an absent amount
leaves the engine unchanged; a present amount always materializes the account
(with zero balances when it was absent), subtracts the amount from available
exactly when the prior available covers it, otherwise leaves balances
unchanged; the deposits map is never touched. -/
theorem withdrawal_behavior (e : Engine) (r : TransactionRecord)
    (hk : r.tx_type = TxType.Withdrawal)
    (hnl : e.notLockedFor r.client_id) :
    (r.amount = none → e.process r = e) ∧
    (∀ amt, r.amount = some amt →
      (amt ≤ (e.entryAccount r.client_id).available →
        alookup (e.process r).accounts r.client_id =
          some { e.entryAccount r.client_id with
            available := (e.entryAccount r.client_id).available - amt }) ∧
      (¬ amt ≤ (e.entryAccount r.client_id).available →
        alookup (e.process r).accounts r.client_id = some (e.entryAccount r.client_id)) ∧
      (e.process r).deposits = e.deposits) := by
  have hp : e.process r = e.withdrawal r := by
    rw [process_eq_dispatch e r hnl, dispatch_withdrawal e r hk]
  refine ⟨fun hm => ?_, fun amt hm => ⟨fun hle => ?_, fun hgt => ?_, ?_⟩⟩
  · rw [hp, withdrawal_noop e r hm]
  · rw [hp, withdrawal_eq_suff e r amt hm hle]
    exact alookup_aset_self _ _ _
  · rw [hp, withdrawal_eq_insuff e r amt hm hgt]
    exact alookup_aset_self _ _ _
  · rw [hp]
    rcases withdrawal_cases e r with hc | ⟨amt', hm', ⟨_, hc⟩ | ⟨_, hc⟩⟩ <;> rw [hc]

theorem withdrawal_behavior_witness :
    Engine.new.notLockedFor 7 ∧
    ¬ (5 : Rat) ≤ (Engine.new.entryAccount 7).available ∧
    alookup (Engine.new.process ⟨TxType.Withdrawal, 7, 3, some 5⟩).accounts 7 =
      some ⟨0, 0, false⟩ ∧
    (Engine.new.process ⟨TxType.Withdrawal, 7, 3, some 5⟩).deposits = [] ∧
    Engine.new.process ⟨TxType.Withdrawal, 8, 4, none⟩ = Engine.new ∧
    (6 : Rat) ≤ (exDeposited.entryAccount 1).available ∧
    alookup (exDeposited.process ⟨TxType.Withdrawal, 1, 2, some 6⟩).accounts 1 =
      some ⟨4, 0, false⟩ := by
  have hnl : Engine.new.notLockedFor 7 := fun b hb => by cases hb
  have hnl1 : exDeposited.notLockedFor 1 := by
    intro b hb
    rw [show alookup exDeposited.accounts 1 = some ⟨10, 0, false⟩ from by
      norm_num [exDeposited, Engine.applyAll, Engine.new, Engine.process, Engine.dispatch,
        Engine.deposit, Engine.entryAccount, alookup, aset, aerase, Account.default]] at hb
    cases hb
    rfl
  have hgt : ¬ (5 : Rat) ≤ (Engine.new.entryAccount 7).available := by
    norm_num [Engine.new, Engine.entryAccount, alookup, Account.default]
  have hle : (6 : Rat) ≤ (exDeposited.entryAccount 1).available := by
    norm_num [exDeposited, Engine.applyAll, Engine.new, Engine.process, Engine.dispatch,
      Engine.deposit, Engine.entryAccount, alookup, aset, aerase, Account.default]
  obtain ⟨hwnone, hwsome⟩ := withdrawal_behavior Engine.new ⟨TxType.Withdrawal, 7, 3, some 5⟩ rfl hnl
  obtain ⟨hi, hn, hdep⟩ := hwsome 5 rfl
  obtain ⟨hwnone2, _⟩ := withdrawal_behavior Engine.new ⟨TxType.Withdrawal, 8, 4, none⟩ rfl
    (fun b hb => by cases hb)
  obtain ⟨_, hwsome1⟩ := withdrawal_behavior exDeposited ⟨TxType.Withdrawal, 1, 2, some 6⟩ rfl hnl1
  obtain ⟨hs1, _, _⟩ := hwsome1 6 rfl
  refine ⟨hnl, hgt, ?_, hdep, hwnone2 rfl, hle, ?_⟩
  · rw [hn hgt]
    norm_num [Engine.new, Engine.entryAccount, alookup, Account.default]
  · rw [hs1 hle]
    norm_num [exDeposited, Engine.applyAll, Engine.new, Engine.process, Engine.dispatch,
      Engine.deposit, Engine.entryAccount, alookup, aset, aerase, Account.default]

/-! ### The conservation law -/

/-- The amount credited when `r` is a successfully applied deposit at state `e`
(it passes the locked-account guard of `Engine::process` and the guards of
`Engine::deposit`), and `0` otherwise. -/
def Engine.depositDelta (e : Engine) (r : TransactionRecord) : Rat :=
  if e.notLockedFor r.client_id ∧ r.tx_type = TxType.Deposit then
    match r.amount with
    | some amt => if (alookup e.deposits r.tx_id).isSome then 0 else amt
    | none => 0
  else 0

/-- The amount debited when `r` is a successful withdrawal at state `e`
(guard passed, amount present, sufficient available funds), and `0` otherwise. -/
def Engine.withdrawalDelta (e : Engine) (r : TransactionRecord) : Rat :=
  if e.notLockedFor r.client_id ∧ r.tx_type = TxType.Withdrawal then
    match r.amount with
    | some amt => if amt ≤ (e.entryAccount r.client_id).available then amt else 0
    | none => 0
  else 0

/-- The amount removed when `r` is a successful chargeback at state `e`
(guard passed, stored deposit found, owner matches, status Disputed, account
exists), and `0` otherwise. -/
def Engine.chargebackDelta (e : Engine) (r : TransactionRecord) : Rat :=
  if e.notLockedFor r.client_id ∧ r.tx_type = TxType.Chargeback then
    match alookup e.deposits r.tx_id with
    | some d =>
      if d.client_id = r.client_id ∧ d.status = DepositStatus.Disputed ∧
          (alookup e.accounts r.client_id).isSome then d.amount else 0
    | none => 0
  else 0

/-- Total amount of the successfully applied deposits along a trace. -/
def Engine.sumDeposits : Engine → List TransactionRecord → Rat
  | _, [] => 0
  | e, r :: rs => e.depositDelta r + Engine.sumDeposits (e.process r) rs

/-- Total amount of the successful withdrawals along a trace. -/
def Engine.sumWithdrawals : Engine → List TransactionRecord → Rat
  | _, [] => 0
  | e, r :: rs => e.withdrawalDelta r + Engine.sumWithdrawals (e.process r) rs

/-- Total amount of the successful chargebacks along a trace. -/
def Engine.sumChargebacks : Engine → List TransactionRecord → Rat
  | _, [] => 0
  | e, r :: rs => e.chargebackDelta r + Engine.sumChargebacks (e.process r) rs

theorem sumTotal_process (e : Engine) (r : TransactionRecord) :
    (e.process r).sumTotal =
      e.sumTotal + e.depositDelta r - e.withdrawalDelta r - e.chargebackDelta r := by
  by_cases hnl : e.notLockedFor r.client_id
  case neg =>
    obtain ⟨a, ha, hl⟩ := not_notLockedFor e r.client_id hnl
    rw [process_of_locked e r a ha hl]
    simp [Engine.depositDelta, Engine.withdrawalDelta, Engine.chargebackDelta, hnl]
  case pos =>
    rw [process_eq_dispatch e r hnl]
    cases hk : r.tx_type
    case Deposit =>
      rw [dispatch_deposit e r hk]
      have hwd : e.withdrawalDelta r = 0 := by simp [Engine.withdrawalDelta, hk]
      have hcd : e.chargebackDelta r = 0 := by simp [Engine.chargebackDelta, hk]
      rw [hwd, hcd]
      cases hm : r.amount with
      | none =>
        rw [deposit_noop e r (Or.inl hm)]
        have : e.depositDelta r = 0 := by simp [Engine.depositDelta, hk, hm]
        rw [this]; ring
      | some amt =>
        cases hnd : alookup e.deposits r.tx_id with
        | some dd =>
          rw [deposit_noop e r (Or.inr (by rw [hnd]; rfl))]
          have : e.depositDelta r = 0 := by simp [Engine.depositDelta, hk, hm, hnd]
          rw [this]; ring
        | none =>
          rw [deposit_eq e r amt hm hnd]
          have : e.depositDelta r = amt := by
            simp [Engine.depositDelta, hnl, hk, hm, hnd]
          rw [this]
          simp only [Engine.sumTotal]
          rw [sumBy_aset]
          cases hacc : alookup e.accounts r.client_id with
          | some a =>
            simp [Engine.entryAccount, hacc, Account.total]
            ring
          | none =>
            simp [Engine.entryAccount, hacc, Account.total, Account.default]
    case Withdrawal =>
      rw [dispatch_withdrawal e r hk]
      have hdd : e.depositDelta r = 0 := by simp [Engine.depositDelta, hk]
      have hcd : e.chargebackDelta r = 0 := by simp [Engine.chargebackDelta, hk]
      rw [hdd, hcd]
      cases hm : r.amount with
      | none =>
        rw [withdrawal_noop e r hm]
        have : e.withdrawalDelta r = 0 := by simp [Engine.withdrawalDelta, hk, hm]
        rw [this]; ring
      | some amt =>
        by_cases hle : amt ≤ (e.entryAccount r.client_id).available
        · rw [withdrawal_eq_suff e r amt hm hle]
          have : e.withdrawalDelta r = amt := by
            simp [Engine.withdrawalDelta, hnl, hk, hm, hle]
          rw [this]
          simp only [Engine.sumTotal]
          rw [sumBy_aset]
          cases hacc : alookup e.accounts r.client_id with
          | some a =>
            simp [Engine.entryAccount, hacc, Account.total]
            ring
          | none =>
            simp [Engine.entryAccount, hacc, Account.total, Account.default]
            ring
        · rw [withdrawal_eq_insuff e r amt hm hle]
          have : e.withdrawalDelta r = 0 := by
            simp [Engine.withdrawalDelta, hk, hm, hle]
          rw [this]
          simp only [Engine.sumTotal]
          rw [sumBy_aset]
          cases hacc : alookup e.accounts r.client_id with
          | some a =>
            simp [Engine.entryAccount, hacc, Account.total]
          | none =>
            simp [Engine.entryAccount, hacc, Account.total, Account.default]
    case Dispute =>
      rw [dispatch_dispute e r hk]
      have hdd : e.depositDelta r = 0 := by simp [Engine.depositDelta, hk]
      have hwd : e.withdrawalDelta r = 0 := by simp [Engine.withdrawalDelta, hk]
      have hcd : e.chargebackDelta r = 0 := by simp [Engine.chargebackDelta, hk]
      rw [hdd, hwd, hcd]
      rcases dispute_cases e r with hc | ⟨d, a, hd, hown, hst, ha, hc⟩
      · rw [hc]; ring
      · rw [hc]
        simp only [Engine.sumTotal]
        rw [sumBy_aset]
        simp [ha, Account.total]
    case Resolve =>
      rw [dispatch_resolve e r hk]
      have hdd : e.depositDelta r = 0 := by simp [Engine.depositDelta, hk]
      have hwd : e.withdrawalDelta r = 0 := by simp [Engine.withdrawalDelta, hk]
      have hcd : e.chargebackDelta r = 0 := by simp [Engine.chargebackDelta, hk]
      rw [hdd, hwd, hcd]
      rcases resolve_cases e r with hc | ⟨d, a, hd, hown, hst, ha, hc⟩
      · rw [hc]; ring
      · rw [hc]
        simp only [Engine.sumTotal]
        rw [sumBy_aset]
        simp [ha, Account.total]
    case Chargeback =>
      rw [dispatch_chargeback e r hk]
      have hdd : e.depositDelta r = 0 := by simp [Engine.depositDelta, hk]
      have hwd : e.withdrawalDelta r = 0 := by simp [Engine.withdrawalDelta, hk]
      rw [hdd, hwd]
      cases hd : alookup e.deposits r.tx_id with
      | none =>
        rw [chargeback_noop e r (fun d' hdd' => by rw [hd] at hdd'; cases hdd')]
        have : e.chargebackDelta r = 0 := by simp [Engine.chargebackDelta, hk, hd]
        rw [this]; ring
      | some d =>
        by_cases hown : d.client_id = r.client_id
        · by_cases hst : d.status = DepositStatus.Disputed
          · cases ha : alookup e.accounts r.client_id with
            | none =>
              rw [chargeback_noop e r (fun d' hdd' => by
                rw [hd] at hdd'; cases hdd'; exact Or.inr (Or.inr ha))]
              have : e.chargebackDelta r = 0 := by
                simp [Engine.chargebackDelta, hk, hd, ha]
              rw [this]; ring
            | some a =>
              rw [chargeback_eq e r d a hd hown hst ha]
              have : e.chargebackDelta r = d.amount := by
                simp [Engine.chargebackDelta, hnl, hk, hd, hown, hst, ha]
              rw [this]
              simp only [Engine.sumTotal]
              rw [sumBy_aset]
              simp [ha, Account.total]
              ring
          · rw [chargeback_noop e r (fun d' hdd' => by
              rw [hd] at hdd'; cases hdd'; exact Or.inr (Or.inl hst))]
            have : e.chargebackDelta r = 0 := by
              simp [Engine.chargebackDelta, hk, hd, hst]
            rw [this]; ring
        · rw [chargeback_noop e r (fun d' hdd' => by
            rw [hd] at hdd'; cases hdd'; exact Or.inl hown)]
          have : e.chargebackDelta r = 0 := by
            simp [Engine.chargebackDelta, hk, hd, hown]
          rw [this]; ring

theorem sumTotal_applyAll (rs : List TransactionRecord) :
    ∀ e : Engine, (e.applyAll rs).sumTotal =
      e.sumTotal + Engine.sumDeposits e rs - Engine.sumWithdrawals e rs -
        Engine.sumChargebacks e rs := by
  induction rs with
  | nil =>
    intro e
    simp [Engine.applyAll, Engine.sumDeposits, Engine.sumWithdrawals, Engine.sumChargebacks]
  | cons r rs ih =>
    intro e
    rw [applyAll_cons, ih (e.process r), sumTotal_process]
    simp only [Engine.sumDeposits, Engine.sumWithdrawals, Engine.sumChargebacks]
    ring

/-- C1: over any trace from a fresh engine, the sum over all accounts of
total (available + held) equals the sum of the successfully applied deposit
amounts, minus the sum of the successful withdrawal amounts, minus the sum of
the successfully charged-back amounts. Dispute and Resolve records appear in
none of the three sums, so dispute/resolve cycles contribute nothing. -/
theorem total_conservation (rs : List TransactionRecord) :
    (Engine.new.applyAll rs).sumTotal =
      Engine.sumDeposits Engine.new rs - Engine.sumWithdrawals Engine.new rs -
        Engine.sumChargebacks Engine.new rs := by
  have h := sumTotal_applyAll rs Engine.new
  have h0 : Engine.sumTotal Engine.new = 0 := by
    simp [Engine.sumTotal, Engine.new, sumBy]
  rw [h0] at h
  rw [h]
  ring

/-! ### The held-funds invariant -/

theorem heldOf_def (e : Engine) (c : ClientId) :
    e.heldOf c = (alookup e.accounts c).elim 0 Account.held := rfl

theorem disputedSum_def (e : Engine) (c : ClientId) :
    e.disputedSum c = sumBy e.deposits (dContrib c) := rfl

theorem entryAccount_held (e : Engine) (c : ClientId) :
    (e.entryAccount c).held = e.heldOf c := by
  unfold Engine.entryAccount Engine.heldOf
  cases alookup e.accounts c <;> simp [Account.default]

theorem held_eq_disputedSum_step (e : Engine) (r : TransactionRecord)
    (ih : ∀ c', e.heldOf c' = e.disputedSum c') (c : ClientId) :
    (e.process r).heldOf c = (e.process r).disputedSum c := by
  have ihc := ih c
  rw [heldOf_def, disputedSum_def] at ihc
  rcases process_cases e r with hp | ⟨hnl, hp⟩
  · rw [hp]; exact ih c
  · rw [hp]
    cases hk : r.tx_type
    case Deposit =>
      rw [dispatch_deposit e r hk]
      rcases deposit_cases e r with hc | ⟨amt, hm, hnd, hc⟩
      · rw [hc]; exact ih c
      · rw [hc]
        simp only [Engine.heldOf, Engine.disputedSum]
        rw [sumBy_aset, hnd, Option.elim_none]
        by_cases hcc : c = r.client_id
        · subst hcc
          rw [alookup_aset_self, Option.elim_some]
          simp [dContrib, entryAccount_held, heldOf_def, ihc]
        · rw [alookup_aset_ne _ _ _ _ hcc]
          simp [dContrib, ihc]
    case Withdrawal =>
      rw [dispatch_withdrawal e r hk]
      rcases withdrawal_cases e r with hc | ⟨amt, hm, ⟨hle, hc⟩ | ⟨hgt, hc⟩⟩
      · rw [hc]; exact ih c
      · rw [hc]
        simp only [Engine.heldOf, Engine.disputedSum]
        by_cases hcc : c = r.client_id
        · subst hcc
          rw [alookup_aset_self, Option.elim_some]
          simp [entryAccount_held, heldOf_def, ihc]
        · rw [alookup_aset_ne _ _ _ _ hcc]
          exact ihc
      · rw [hc]
        simp only [Engine.heldOf, Engine.disputedSum]
        by_cases hcc : c = r.client_id
        · subst hcc
          rw [alookup_aset_self, Option.elim_some]
          simp [entryAccount_held, heldOf_def, ihc]
        · rw [alookup_aset_ne _ _ _ _ hcc]
          exact ihc
    case Dispute =>
      rw [dispatch_dispute e r hk]
      rcases dispute_cases e r with hc | ⟨d, a, hd, hown, hst, ha, hc⟩
      · rw [hc]; exact ih c
      · rw [hc]
        simp only [Engine.heldOf, Engine.disputedSum]
        rw [sumBy_aset, hd, Option.elim_some]
        have hcd : dContrib c d = 0 := by simp [dContrib, hst]
        rw [hcd]
        by_cases hcc : c = r.client_id
        · subst hcc
          rw [alookup_aset_self, Option.elim_some]
          rw [ha, Option.elim_some] at ihc
          have hdc : dContrib r.client_id
              { d with status := DepositStatus.Disputed } = d.amount := by
            simp [dContrib, hown]
          rw [hdc]
          dsimp only
          rw [ihc]
          ring
        · rw [alookup_aset_ne _ _ _ _ hcc]
          have hdc : dContrib c { d with status := DepositStatus.Disputed } = 0 := by
            simp [dContrib, hown, show r.client_id ≠ c from fun h => hcc h.symm]
          rw [hdc, ihc]
          ring
    case Resolve =>
      rw [dispatch_resolve e r hk]
      rcases resolve_cases e r with hc | ⟨d, a, hd, hown, hst, ha, hc⟩
      · rw [hc]; exact ih c
      · rw [hc]
        simp only [Engine.heldOf, Engine.disputedSum]
        rw [sumBy_aset, hd, Option.elim_some]
        have hcd : dContrib c { d with status := DepositStatus.Normal } = 0 := by
          simp [dContrib]
        rw [hcd]
        by_cases hcc : c = r.client_id
        · subst hcc
          rw [alookup_aset_self, Option.elim_some]
          rw [ha, Option.elim_some] at ihc
          have hdc : dContrib r.client_id d = d.amount := by
            simp [dContrib, hown, hst]
          rw [hdc]
          dsimp only
          rw [ihc]
          ring
        · rw [alookup_aset_ne _ _ _ _ hcc]
          have hdc : dContrib c d = 0 := by
            simp [dContrib, hown, hst, show r.client_id ≠ c from fun h => hcc h.symm]
          rw [hdc, ihc]
          ring
    case Chargeback =>
      rw [dispatch_chargeback e r hk]
      rcases chargeback_cases e r with hc | ⟨d, a, hd, hown, hst, ha, hc⟩
      · rw [hc]; exact ih c
      · rw [hc]
        simp only [Engine.heldOf, Engine.disputedSum]
        rw [sumBy_aset, hd, Option.elim_some]
        have hcd : dContrib c { d with status := DepositStatus.ChargedBack } = 0 := by
          simp [dContrib]
        rw [hcd]
        by_cases hcc : c = r.client_id
        · subst hcc
          rw [alookup_aset_self, Option.elim_some]
          rw [ha, Option.elim_some] at ihc
          have hdc : dContrib r.client_id d = d.amount := by
            simp [dContrib, hown, hst]
          rw [hdc]
          dsimp only
          rw [ihc]
          ring
        · rw [alookup_aset_ne _ _ _ _ hcc]
          have hdc : dContrib c d = 0 := by
            simp [dContrib, hown, hst, show r.client_id ≠ c from fun h => hcc h.symm]
          rw [hdc, ihc]
          ring

theorem deposits_nonneg_step (e : Engine) (r : TransactionRecord)
    (ih : ∀ p ∈ e.deposits, 0 ≤ p.2.amount)
    (hr : ∀ amt, r.amount = some amt → 0 ≤ amt) :
    ∀ p ∈ (e.process r).deposits, 0 ≤ p.2.amount := by
  rcases process_cases e r with hp | ⟨hnl, hp⟩
  · rw [hp]; exact ih
  · rw [hp]
    cases hk : r.tx_type
    case Deposit =>
      rw [dispatch_deposit e r hk]
      rcases deposit_cases e r with hc | ⟨amt, hm, hnd, hc⟩
      · rw [hc]; exact ih
      · rw [hc]
        intro p hp'
        rcases mem_aset hp' with hpe | hpe
        · subst hpe; exact hr amt hm
        · exact ih p hpe
    case Withdrawal =>
      rw [dispatch_withdrawal e r hk]
      rcases withdrawal_cases e r with hc | ⟨amt, hm, ⟨_, hc⟩ | ⟨_, hc⟩⟩ <;> rw [hc] <;> exact ih
    case Dispute =>
      rw [dispatch_dispute e r hk]
      rcases dispute_cases e r with hc | ⟨d, a, hd, hown, hst, ha, hc⟩
      · rw [hc]; exact ih
      · rw [hc]
        intro p hp'
        rcases mem_aset hp' with hpe | hpe
        · subst hpe; exact ih (r.tx_id, d) (alookup_mem _ _ _ hd)
        · exact ih p hpe
    case Resolve =>
      rw [dispatch_resolve e r hk]
      rcases resolve_cases e r with hc | ⟨d, a, hd, hown, hst, ha, hc⟩
      · rw [hc]; exact ih
      · rw [hc]
        intro p hp'
        rcases mem_aset hp' with hpe | hpe
        · subst hpe; exact ih (r.tx_id, d) (alookup_mem _ _ _ hd)
        · exact ih p hpe
    case Chargeback =>
      rw [dispatch_chargeback e r hk]
      rcases chargeback_cases e r with hc | ⟨d, a, hd, hown, hst, ha, hc⟩
      · rw [hc]; exact ih
      · rw [hc]
        intro p hp'
        rcases mem_aset hp' with hpe | hpe
        · subst hpe; exact ih (r.tx_id, d) (alookup_mem _ _ _ hd)
        · exact ih p hpe

theorem held_eq_disputedSum_applyAll (rs : List TransactionRecord) :
    ∀ e : Engine, (∀ c', e.heldOf c' = e.disputedSum c') →
      ∀ c, (e.applyAll rs).heldOf c = (e.applyAll rs).disputedSum c := by
  induction rs with
  | nil => intro e h c; exact h c
  | cons r rs ihr =>
    intro e h c
    rw [applyAll_cons]
    exact ihr (e.process r) (held_eq_disputedSum_step e r h) c

theorem deposits_nonneg_applyAll (rs : List TransactionRecord) :
    ∀ e : Engine, (∀ p ∈ e.deposits, 0 ≤ p.2.amount) →
      (∀ r ∈ rs, ∀ amt, r.amount = some amt → 0 ≤ amt) →
      ∀ p ∈ (e.applyAll rs).deposits, 0 ≤ p.2.amount := by
  induction rs with
  | nil => intro e h _; exact h
  | cons r rs ihr =>
    intro e h hrs
    rw [applyAll_cons]
    exact ihr (e.process r)
      (deposits_nonneg_step e r h (hrs r (List.mem_cons_self r rs)))
      (fun r' hr' => hrs r' (List.mem_cons_of_mem r hr'))

/-- C9 counterexample: the engine accepts deposits with negative amounts, and
disputing such a deposit drives held below zero, so held is not always
nonnegative in reachable states. -/
theorem held_negative_counterexample :
    (Engine.applyAll Engine.new
      [⟨TxType.Deposit, 1, 1, some (-5)⟩, ⟨TxType.Dispute, 1, 1, none⟩]).heldOf 1 = -5 ∧
    ¬ (0 ≤ (Engine.applyAll Engine.new
      [⟨TxType.Deposit, 1, 1, some (-5)⟩, ⟨TxType.Dispute, 1, 1, none⟩]).heldOf 1) := by
  have h : (Engine.applyAll Engine.new
      [⟨TxType.Deposit, 1, 1, some (-5)⟩, ⟨TxType.Dispute, 1, 1, none⟩]).heldOf 1 = -5 := by
    norm_num [Engine.applyAll, Engine.new, Engine.process, Engine.dispatch, Engine.deposit,
      Engine.dispute, Engine.entryAccount, Engine.heldOf, alookup, aset, aerase,
      Account.default]
  rw [h]
  norm_num

/-- C9 (amended): in every state reachable from a fresh engine, each account's
held field equals the sum of the amounts of its stored Disputed deposits; and
when every amount carried by the trace is nonnegative, held is nonnegative.
(The unamended nonnegativity fails because the engine accepts deposits with
negative amounts.) -/
theorem held_eq_disputedSum (rs : List TransactionRecord) (c : ClientId) :
    (Engine.new.applyAll rs).heldOf c = (Engine.new.applyAll rs).disputedSum c ∧
    ((∀ r ∈ rs, ∀ amt, r.amount = some amt → 0 ≤ amt) →
      0 ≤ (Engine.new.applyAll rs).heldOf c) := by
  have h1 : (Engine.new.applyAll rs).heldOf c = (Engine.new.applyAll rs).disputedSum c :=
    held_eq_disputedSum_applyAll rs Engine.new
      (fun c' => by simp [Engine.heldOf, Engine.disputedSum, Engine.new, alookup, sumBy]) c
  refine ⟨h1, fun hrs => ?_⟩
  rw [h1, disputedSum_def]
  refine sumBy_nonneg _ _ (fun p hp => ?_)
  have hnn := deposits_nonneg_applyAll rs Engine.new (by intro p hp'; cases hp') hrs p hp
  unfold dContrib
  by_cases hcond : p.2.client_id = c ∧ p.2.status = DepositStatus.Disputed
  · rw [if_pos hcond]; exact hnn
  · rw [if_neg hcond]

theorem held_eq_disputedSum_witness :
    (∀ r ∈ ([⟨TxType.Deposit, 1, 1, some 5⟩, ⟨TxType.Dispute, 1, 1, none⟩] :
        List TransactionRecord), ∀ amt, r.amount = some amt → 0 ≤ amt) ∧
    (Engine.new.applyAll
      [⟨TxType.Deposit, 1, 1, some 5⟩, ⟨TxType.Dispute, 1, 1, none⟩]).heldOf 1 =
      (Engine.new.applyAll
        [⟨TxType.Deposit, 1, 1, some 5⟩, ⟨TxType.Dispute, 1, 1, none⟩]).disputedSum 1 ∧
    0 ≤ (Engine.new.applyAll
      [⟨TxType.Deposit, 1, 1, some 5⟩, ⟨TxType.Dispute, 1, 1, none⟩]).heldOf 1 := by
  have hrs : ∀ r ∈ ([⟨TxType.Deposit, 1, 1, some 5⟩, ⟨TxType.Dispute, 1, 1, none⟩] :
      List TransactionRecord), ∀ amt, r.amount = some amt → 0 ≤ amt := by
    intro r hr amt ham
    rcases List.mem_cons.mp hr with rfl | hr2
    · cases ham; norm_num
    · rcases List.mem_cons.mp hr2 with rfl | hr3
      · cases ham
      · cases hr3
  obtain ⟨h1, h2⟩ := held_eq_disputedSum
    [⟨TxType.Deposit, 1, 1, some 5⟩, ⟨TxType.Dispute, 1, 1, none⟩] 1
  exact ⟨hrs, h1, h2 hrs⟩

/-! ### Every stored deposit's owner has an account -/

theorem owner_has_account_step (e : Engine) (r : TransactionRecord)
    (ih : ∀ t d, alookup e.deposits t = some d →
      (alookup e.accounts d.client_id).isSome) :
    ∀ t d, alookup (e.process r).deposits t = some d →
      (alookup (e.process r).accounts d.client_id).isSome := by
  rcases process_cases e r with hp | ⟨hnl, hp⟩
  · rw [hp]; exact ih
  · rw [hp]
    cases hk : r.tx_type
    case Deposit =>
      rw [dispatch_deposit e r hk]
      rcases deposit_cases e r with hc | ⟨amt, hm, hnd, hc⟩
      · rw [hc]; exact ih
      · rw [hc]
        intro t d htd
        by_cases ht : t = r.tx_id
        · subst ht
          rw [alookup_aset_self] at htd
          cases htd
          rw [show (⟨r.client_id, amt, DepositStatus.Normal⟩ :
            DepositRecord).client_id = r.client_id from rfl]
          rw [alookup_aset_self]
          rfl
        · rw [alookup_aset_ne _ _ _ _ ht] at htd
          exact alookup_aset_isSome _ _ _ _ (ih t d htd)
    case Withdrawal =>
      rw [dispatch_withdrawal e r hk]
      rcases withdrawal_cases e r with hc | ⟨amt, hm, ⟨_, hc⟩ | ⟨_, hc⟩⟩
      · rw [hc]; exact ih
      · rw [hc]
        intro t d htd
        exact alookup_aset_isSome _ _ _ _ (ih t d htd)
      · rw [hc]
        intro t d htd
        exact alookup_aset_isSome _ _ _ _ (ih t d htd)
    case Dispute =>
      rw [dispatch_dispute e r hk]
      rcases dispute_cases e r with hc | ⟨d0, a, hd, hown, hst, ha, hc⟩
      · rw [hc]; exact ih
      · rw [hc]
        intro t d htd
        by_cases ht : t = r.tx_id
        · subst ht
          rw [alookup_aset_self] at htd
          cases htd
          rw [show (DepositRecord.client_id { d0 with status := DepositStatus.Disputed }) =
            d0.client_id from rfl, hown]
          rw [alookup_aset_self]
          rfl
        · rw [alookup_aset_ne _ _ _ _ ht] at htd
          exact alookup_aset_isSome _ _ _ _ (ih t d htd)
    case Resolve =>
      rw [dispatch_resolve e r hk]
      rcases resolve_cases e r with hc | ⟨d0, a, hd, hown, hst, ha, hc⟩
      · rw [hc]; exact ih
      · rw [hc]
        intro t d htd
        by_cases ht : t = r.tx_id
        · subst ht
          rw [alookup_aset_self] at htd
          cases htd
          rw [show (DepositRecord.client_id { d0 with status := DepositStatus.Normal }) =
            d0.client_id from rfl, hown]
          rw [alookup_aset_self]
          rfl
        · rw [alookup_aset_ne _ _ _ _ ht] at htd
          exact alookup_aset_isSome _ _ _ _ (ih t d htd)
    case Chargeback =>
      rw [dispatch_chargeback e r hk]
      rcases chargeback_cases e r with hc | ⟨d0, a, hd, hown, hst, ha, hc⟩
      · rw [hc]; exact ih
      · rw [hc]
        intro t d htd
        by_cases ht : t = r.tx_id
        · subst ht
          rw [alookup_aset_self] at htd
          cases htd
          rw [show (DepositRecord.client_id { d0 with status := DepositStatus.ChargedBack }) =
            d0.client_id from rfl, hown]
          rw [alookup_aset_self]
          rfl
        · rw [alookup_aset_ne _ _ _ _ ht] at htd
          exact alookup_aset_isSome _ _ _ _ (ih t d htd)

theorem owner_has_account_applyAll (rs : List TransactionRecord) :
    ∀ e : Engine, (∀ t d, alookup e.deposits t = some d →
      (alookup e.accounts d.client_id).isSome) →
      ∀ t d, alookup (e.applyAll rs).deposits t = some d →
        (alookup (e.applyAll rs).accounts d.client_id).isSome := by
  induction rs with
  | nil => intro e h; exact h
  | cons r rs ihr =>
    intro e h
    rw [applyAll_cons]
    exact ihr (e.process r) (owner_has_account_step e r h)

/-- C10: in every state reachable from a fresh engine, the owning client of
every stored deposit record has an account; consequently, for any
dispute-cycle record that finds its deposit and passes the ownership check,
the defensive account-not-found branch cannot be taken. -/
theorem deposit_owner_has_account (rs : List TransactionRecord) :
    (∀ t d, alookup (Engine.new.applyAll rs).deposits t = some d →
      (alookup (Engine.new.applyAll rs).accounts d.client_id).isSome) ∧
    (∀ (r : TransactionRecord) d,
      alookup (Engine.new.applyAll rs).deposits r.tx_id = some d →
      d.client_id = r.client_id →
      alookup (Engine.new.applyAll rs).accounts r.client_id ≠ none) := by
  have h1 := owner_has_account_applyAll rs Engine.new (by intro t d htd; cases htd)
  refine ⟨h1, fun r d htd hown hnone => ?_⟩
  have := h1 r.tx_id d htd
  rw [hown, hnone] at this
  cases this

theorem deposit_owner_has_account_witness :
    alookup (Engine.new.applyAll [⟨TxType.Deposit, 1, 1, some 5⟩]).deposits 1 =
      some ⟨1, 5, DepositStatus.Normal⟩ ∧
    (alookup (Engine.new.applyAll
      [⟨TxType.Deposit, 1, 1, some 5⟩]).accounts 1).isSome ∧
    alookup (Engine.new.applyAll [⟨TxType.Deposit, 1, 1, some 5⟩]).accounts 1 ≠ none := by
  have htd : alookup (Engine.new.applyAll [⟨TxType.Deposit, 1, 1, some 5⟩]).deposits 1 =
      some ⟨1, 5, DepositStatus.Normal⟩ := by
    norm_num [Engine.applyAll, Engine.new, Engine.process, Engine.dispatch, Engine.deposit,
      Engine.entryAccount, alookup, aset, aerase, Account.default]
  obtain ⟨h1, h2⟩ := deposit_owner_has_account [⟨TxType.Deposit, 1, 1, some 5⟩]
  exact ⟨htd, h1 1 _ htd,
    h2 ⟨TxType.Dispute, 1, 1, none⟩ ⟨1, 5, DepositStatus.Normal⟩ htd rfl⟩

end PaymentEngine
